import Mathlib

/-!
Verification development for the GitHub Actions version updater
(`src/main.py`, `src/config.py` of the current generation of the tool).

The Python code is shallowly embedded below.  Strings are modelled as
`List Char`; the GitHub HTTP collaborators (release listing, commit lookup,
default-branch lookup, workflow listing, git state) are passed in as explicit
data or function parameters; `SystemExit` and Python exceptions that the code
catches are modelled with `Except`/`Option`.
-/

/-- Convert a Lean string literal to the `List Char` representation used by the
embedding. -/
def str (x : String) : List Char := x.toList

/-! ## Python regular-expression fragments

`_update_workflow` (main.py lines 173-179) rewrites the file text with

  `re.sub(rf"({action})(\s+['\"]?|['\"]?$)", rf"{updated_action}\2", text, 0, re.MULTILINE)`

The functions below model exactly this pattern family: the interpolated
`action` token is matched literally except that `'.'` (the only regex
metacharacter occurring in action tokens such as `actions/checkout@v1.2`)
matches any character other than a newline; group 2 is either one-or-more
whitespace followed by an optional quote, or an optional quote followed by a
line edge (`$` under `re.MULTILINE`: end of text or just before `'\n'`). -/

/-- Python `\s` on ASCII text: space, tab, newline, carriage return,
vertical tab, form feed. -/
def isPySpace (c : Char) : Bool :=
  c = ' ' || c = '\t' || c = '\n' || c = '\r' || c = '\x0b' || c = '\x0c'

/-- A single or double quote, as in the character class `['\"]` of the
substitution pattern. -/
def isQuoteChar (c : Char) : Bool :=
  c = '\'' || c = '\"'

/-- Match the interpolated action token at the front of `t`; a pattern
character `'.'` matches any character except `'\n'` (Python `re` dot), every
other character matches itself.  Returns the rest of the text. -/
def matchToken : List Char → List Char → Option (List Char)
  | [], t => some t
  | _ :: _, [] => none
  | p :: ps, c :: cs =>
    if p = '.' then (if c = '\n' then none else matchToken ps cs)
    else if p = c then matchToken ps cs
    else none

/-- Whether the position given by `t` is at a line edge: end of the text or
just before a `'\n'` (the `$` anchor under `re.MULTILINE`). -/
def atLineEdge : List Char → Bool
  | [] => true
  | c :: _ => c = '\n'

/-- Match group 2 of the substitution pattern, `(\s+['\"]?|['\"]?$)`, at the
front of `t`.  The first alternative (greedy one-or-more whitespace, then an
optional quote) is tried first, as Python does; the second consumes an
optional quote provided the `$` anchor then matches.  Returns the consumed
characters (the text of group 2) and the rest. -/
def matchBoundary (t : List Char) : Option (List Char × List Char) :=
  let ws := t.takeWhile isPySpace
  if ws.isEmpty then
    match t with
    | q :: rest =>
      if isQuoteChar q && atLineEdge rest then some ([q], rest)
      else if atLineEdge t then some ([], t) else none
    | [] => some ([], [])
  else
    match t.drop ws.length with
    | q :: rest => if isQuoteChar q then some (ws ++ [q], rest) else some (ws, t.drop ws.length)
    | [] => some (ws, [])

/-- Try the whole substitution pattern (token, then group 2) at the front of
`t`: on success return the text of group 2 and the rest after the match. -/
def tryMatch (act t : List Char) : Option (List Char × List Char) :=
  (matchToken act t).bind matchBoundary

/-- Whether the whole substitution pattern matches at the front of `t`. -/
def boundaryMatch (act t : List Char) : Bool :=
  (tryMatch act t).isSome

/-- One left-to-right scan of `re.sub`: at each position try the pattern; on a
match emit the replacement followed by the text of group 2 (the `\2`
back-reference) and continue after the match, otherwise keep one character and
move on.  `fuel` bounds the recursion; `reSub` supplies enough of it. -/
def reSubScan (act rep : List Char) : Nat → List Char → List Char
  | 0, t => t
  | fuel + 1, t =>
    match tryMatch act t with
    | some (g2, rest) => rep ++ g2 ++ reSubScan act rep fuel rest
    | none =>
      match t with
      | [] => []
      | c :: cs => c :: reSubScan act rep fuel cs

/-- The text substitution of `_update_workflow` (main.py lines 173-179):
replace every occurrence of `act` that is followed by the group-2 boundary
with `rep`, keeping the boundary text. -/
def reSub (act rep t : List Char) : List Char :=
  reSubScan act rep (t.length + 1) t

/-! ## Version model

`main.py` parses tags with `packaging.version.parse`.  The model below covers
the fragment of that library exercised by this program: an optional leading
`v`/`V` followed by dot-separated numeric components parses as a semantic
`release`; every other string is a `legacy` version (`LegacyVersion`).  A
`legacy` version always sorts below any `release` version, matching
`packaging`; comparing two `release` versions compares the numeric components
with implicit zero padding (equivalently, trailing zeros stripped, as
`packaging` does).  `major`/`minor`/`micro` of a `release` are its first three
components, defaulting to `0`. -/

/-- Result of `packaging.version.parse`: a PEP440 `Version` restricted to the
plain-release shape used by action tags, or a `LegacyVersion` carrying the raw
string. -/
inductive PyVersion
  | release : List Nat → PyVersion
  | legacy : List Char → PyVersion
deriving DecidableEq, Repr

/-- Split a character list on a separator, Python `str.split(sep)`:
`split '@' "a@b@c" = ["a", "b", "c"]` and the empty string yields `[""]`. -/
def splitOnChar (sep : Char) : List Char → List (List Char)
  | [] => [[]]
  | c :: cs =>
    if c = sep then [] :: splitOnChar sep cs
    else
      match splitOnChar sep cs with
      | [] => [[c]]
      | p :: ps => (c :: p) :: ps

/-- Numeric value of a digit string (the strings fed to it are all-digit). -/
def digitsToNat (s : List Char) : Nat :=
  s.foldl (fun n c => 10 * n + (c.toNat - '0'.toNat)) 0

/-- Model of `packaging.version.parse` on the shapes this program produces:
strip one leading `v`/`V`, then require dot-separated nonempty all-digit
components for a semantic `release`; anything else is `legacy`. -/
def parseVersion (s : List Char) : PyVersion :=
  let t := match s with
    | c :: cs => if c = 'v' || c = 'V' then cs else s
    | [] => s
  let parts := splitOnChar '.' t
  if parts.all (fun p => !p.isEmpty && p.all Char.isDigit) then
    PyVersion.release (parts.map digitsToNat)
  else
    PyVersion.legacy s

/-- Three-way comparison on `Nat`. -/
def cmpN (a b : Nat) : Ordering :=
  if a < b then .lt else if b < a then .gt else .eq

/-- Pad a component list with zeros up to length `n`. -/
def padZeros (n : Nat) (l : List Nat) : List Nat :=
  l ++ List.replicate (n - l.length) 0

/-- Compare two release-component lists as `packaging` compares release
tuples: componentwise, the shorter padded with zeros. -/
def cmpNatList (a b : List Nat) : Ordering :=
  let n := max a.length b.length
  ((padZeros n a).zipWith cmpN (padZeros n b)).foldl Ordering.then .eq

/-- Lexicographic comparison of raw strings, modelling the ordering among
`LegacyVersion` values (never relied on by any claim below beyond totality). -/
def cmpChars : List Char → List Char → Ordering
  | [], [] => .eq
  | [], _ :: _ => .lt
  | _ :: _, [] => .gt
  | c :: cs, d :: ds => (cmpN c.toNat d.toNat).then (cmpChars cs ds)

/-- Ordering on parsed versions: a `legacy` version sorts below every
`release` version, as in `packaging`. -/
def cmpPyVersion : PyVersion → PyVersion → Ordering
  | .release a, .release b => cmpNatList a b
  | .legacy a, .legacy b => cmpChars a b
  | .legacy _, .release _ => .lt
  | .release _, .legacy _ => .gt

/-- `Version.major`: first release component, default `0`. -/
def majorOf (ns : List Nat) : Nat := ns.getD 0 0

/-- `Version.minor`: second release component, default `0`. -/
def minorOf (ns : List Nat) : Nat := ns.getD 1 0

/-- `Version.micro`: third release component, default `0`. -/
def microOf (ns : List Nat) : Nat := ns.getD 2 0

/-- `True` exactly on semantic (`release`) parses. -/
def isSemanticPV : PyVersion → Bool
  | .release _ => true
  | .legacy _ => false

/-! ## Release data and the release-type filter -/

/-- The `ReleaseType` enumeration of `config.py`. -/
inductive ReleaseType
  | major
  | minor
  | patch
deriving DecidableEq, Repr

/-- One entry of the GitHub list-releases API response, before filtering
(`_get_github_releases`, main.py lines 221-256). -/
structure RawRelease where
  tagName : List Char
  publishedAt : List Char
  htmlUrl : List Char
  prerelease : Bool
deriving DecidableEq, Repr

/-- One release dictionary as built by `_get_github_releases`: the API fields
plus the parsed tag (`tag_name_parsed`). -/
structure Release where
  tagName : List Char
  publishedAt : List Char
  htmlUrl : List Char
  tagNameParsed : PyVersion
deriving DecidableEq, Repr

/-- Stable descending insertion: place `x` in front of the first element it is
greater than or equal to.  Folding it over the input models Python's stable
`sorted(..., key=tag_name_parsed, reverse=True)`. -/
def insertDescending (x : Release) : List Release → List Release
  | [] => [x]
  | y :: ys =>
    if cmpPyVersion x.tagNameParsed y.tagNameParsed ≠ .lt then x :: y :: ys
    else y :: insertDescending x ys

/-- Sort releases by parsed tag, descending, stably. -/
def sortReleasesDescending (l : List Release) : List Release :=
  l.foldr insertDescending []

/-- `_get_github_releases` (main.py lines 221-256): on a successful API
response with a nonempty body, keep the non-prerelease entries, attach the
parsed tag, and sort descending by it; otherwise return the empty list. -/
def getGithubReleases (apiOk : Bool) (resp : List RawRelease) : List Release :=
  if apiOk && !resp.isEmpty then
    sortReleasesDescending
      ((resp.filter (fun r => !r.prerelease)).map
        (fun r => ⟨r.tagName, r.publishedAt, r.htmlUrl, parseVersion r.tagName⟩))
  else []

/-- The disjunction of the bump checks built by `_release_filter_function`
(main.py lines 268-283) for the release types present in `rts`, evaluated on
the (major, minor, micro) data of two semantic versions. -/
def bumpChecks (rts : List ReleaseType) (rr cc : List Nat) : Bool :=
  (decide (ReleaseType.major ∈ rts) && decide (majorOf rr > majorOf cc))
  || (decide (ReleaseType.minor ∈ rts)
      && (decide (majorOf rr = majorOf cc) && decide (minorOf rr > minorOf cc)))
  || (decide (ReleaseType.patch ∈ rts)
      && (decide (majorOf rr = majorOf cc) && decide (minorOf rr = minorOf cc)
          && decide (microOf rr > microOf cc)))

/-- `_release_filter_function` (main.py lines 258-290).  If the configured
release-type list is exactly `[major, minor, patch]` (Python list equality,
so order matters), the filter is `lambda r, c: True`.  Otherwise the listed
bump checks are tried with `any(...)`: an empty check list yields `False`
without touching the arguments, and every check starts by reading the
`major` attribute of both versions, so a `legacy` value on either side raises
`AttributeError`, modelled as `.error ()`. -/
def releaseFilter (rts : List ReleaseType) (r c : PyVersion) : Except Unit Bool :=
  if rts = [ReleaseType.major, ReleaseType.minor, ReleaseType.patch] then .ok true
  else if rts = [] then .ok false
  else
    match r, c with
    | .release rr, .release cc => .ok (bumpChecks rts rr cc)
    | _, _ => .error ()

/-- The pure boolean value of the filter on arguments where it cannot raise;
used to state which candidate `next(filter(...))` selects. -/
def filterBool (rts : List ReleaseType) (r c : PyVersion) : Bool :=
  if rts = [ReleaseType.major, ReleaseType.minor, ReleaseType.patch] then true
  else
    match r, c with
    | .release rr, .release cc => bumpChecks rts rr cc
    | _, _ => false

/-- The `next(filter(...), {})` evaluation inside `_get_latest_version_release`
(main.py lines 311-328): walk the sorted candidates, return the first one the
filter accepts; if evaluating the filter raises (`AttributeError`), fall back
to `fallback` (`github_releases[0]`) with the reliability warning; if the list
is exhausted, no release qualifies.  The `Bool` records whether the warning
was emitted. -/
def findQualifying (rts : List ReleaseType) (c : PyVersion) (fallback : Option Release) :
    List Release → Option Release × Bool
  | [] => (none, false)
  | r :: rest =>
    match releaseFilter rts r.tagNameParsed c with
    | .error _ => (fallback, true)
    | .ok true => (some r, false)
    | .ok false => findQualifying rts c fallback rest

/-- `_get_latest_version_release` (main.py lines 292-330): fetch and sort the
releases; empty means no result; a `legacy` current version bypasses the
filter and takes the newest release with a reliability warning; a semantic
current version selects the first qualifying candidate in descending order.
The `Bool` records whether a reliability warning was emitted. -/
def getLatestVersionRelease (apiOk : Bool) (resp : List RawRelease)
    (currentVersion : List Char) (rts : List ReleaseType) : Option Release × Bool :=
  match getGithubReleases apiOk resp with
  | [] => (none, false)
  | r0 :: rest =>
    match parseVersion currentVersion with
    | .legacy _ => (some r0, true)
    | .release cc =>
      findQualifying rts (.release cc) (some r0) (r0 :: rest)

/-! ## Configuration: release-type cleaning -/

/-- Map a cleaned release-type string to the `ReleaseType` enumeration member
with that value. -/
def releaseTypeOfChars (s : List Char) : Option ReleaseType :=
  if s = str "major" then some ReleaseType.major
  else if s = str "minor" then some ReleaseType.minor
  else if s = str "patch" then some ReleaseType.patch
  else none

/-- Strip leading and trailing whitespace, Python `str.strip()` on ASCII. -/
def stripChars (s : List Char) : List Char :=
  ((s.dropWhile isPySpace).reverse.dropWhile isPySpace).reverse

/-- Lowercase a string, Python `str.lower()` on ASCII. -/
def lowerChars (s : List Char) : List Char :=
  s.map Char.toLower

/-- `Configuration.clean_release_types` (config.py lines 137-151): an empty
input keeps the default (`.ok none`); otherwise lowercase, strip, split on
commas, drop empty pieces, strip each piece; `["all"]` becomes the canonical
list `[major, minor, patch]`; any other list of valid names is kept in the
user's order; an invalid name exits with failure (`.error ()`,
`SystemExit(1)`). -/
def cleanReleaseTypes (value : List Char) : Except Unit (Option (List ReleaseType)) :=
  if value.isEmpty then .ok none
  else
    let values := ((splitOnChar ',' (stripChars (lowerChars value))).filter
      (fun s => !s.isEmpty)).map stripChars
    if values = [str "all"] then
      .ok (some [ReleaseType.major, ReleaseType.minor, ReleaseType.patch])
    else if values.all (fun v => (releaseTypeOfChars v).isSome) then
      .ok (some (values.filterMap releaseTypeOfChars))
    else .error ()

/-! ## Reference-token parsing and the per-file update loop -/

/-- The `action.split("@")` unpacking of `_update_workflow` (main.py lines
136-148): tuple unpacking into two names succeeds only when the split has
exactly two parts, i.e. the token contains exactly one `@`; otherwise the
`ValueError` is caught, a format notice naming the token is logged and the
reference is skipped. -/
def parseActionToken (action : List Char) : Option (List Char × List Char) :=
  match splitOnChar '@' action with
  | [loc, ver] => some (loc, ver)
  | _ => none

/-- Join string pieces with a separator, Python `sep.join(...)`. -/
def joinWithChar (sep : Char) : List (List Char) → List Char
  | [] => []
  | [p] => p
  | p :: ps => p ++ sep :: joinWithChar sep ps

/-- `"/".join(action_location.split("/")[:2])` (main.py line 142): the
`owner/repo` lookup identity of a possibly sub-pathed action location. -/
def ownerRepo (loc : List Char) : List Char :=
  joinWithChar '/' ((splitOnChar '/' loc).take 2)

/-- State threaded through the per-file action loop of `_update_workflow`:
the file text being rewritten, the set of markdown items produced so far
(modelled by the identifying `(action_repository, new_version)` pair of each
generated line), and the list of `(action_repository, current_version)`
resolutions attempted (the calls made to `_get_new_version`). -/
structure WorkflowState where
  text : List Char
  markdownSet : List (List Char × List Char)
  attempts : List (List Char × List Char)
deriving DecidableEq, Repr

/-- Insert into the markdown set without duplicates (`set.add`). -/
def mdInsert (m : List Char × List Char) (s : List (List Char × List Char)) :
    List (List Char × List Char) :=
  if m ∈ s then s else s ++ [m]

/-- The part of the loop body of `_update_workflow` (main.py lines 150-181)
after the token has been parsed into `(loc, ver)`: call the resolver, skip
when no new version is found, and otherwise rewrite the text with `reSub` and
record the markdown item when the rewritten token differs from the old
one. -/
def stepResolve (getNewVer : List Char → List Char → Option (List Char))
    (action loc ver : List Char) (st : WorkflowState) : WorkflowState :=
  match getNewVer (ownerRepo loc) ver with
  | none => st
  | some newVer =>
    if action = loc ++ '@' :: newVer then st
    else
      { st with
        text := reSub action (loc ++ '@' :: newVer) st.text
        markdownSet := mdInsert (ownerRepo loc, newVer) st.markdownSet }

/-- The body of the `for action in all_actions` loop of `_update_workflow`
(main.py lines 136-181) for one action token: parse it (skip with a notice on
failure), record the resolution attempt in `attempts` and continue with
`stepResolve`. -/
def stepAction (getNewVer : List Char → List Char → Option (List Char))
    (st : WorkflowState) (action : List Char) : WorkflowState :=
  match parseActionToken action with
  | none => st
  | some (loc, ver) =>
    stepResolve getNewVer action loc ver
      { st with attempts := st.attempts ++ [(ownerRepo loc, ver)] }

/-- The update pass of `_update_workflow` over one file (main.py lines
112-189): remove the ignored tokens from the discovered action set (the exact
string `difference_update` of line 134), then run the action loop over the
survivors starting from the raw file text. -/
def updateWorkflow (getNewVer : List Char → List Char → Option (List Char))
    (fileData : List Char) (actions ignore : List (List Char)) : WorkflowState :=
  (actions.filter (fun a => decide (¬ a ∈ ignore))).foldl (stepAction getNewVer)
    ⟨fileData, [], []⟩

/-- Whether `_update_workflow` writes the file back (main.py lines 183-186):
it does so exactly when the markdown set is nonempty. -/
def fileWritten (getNewVer : List Char → List Char → Option (List Char))
    (fileData : List Char) (actions ignore : List (List Char)) : Bool :=
  !(updateWorkflow getNewVer fileData actions ignore).markdownSet.isEmpty

/-- The ReleaseTag branch of `_get_new_version` (main.py lines 385-389): the
new version is the `tag_name` of the latest qualifying release, where the
release list for a repository comes from the list-releases collaborator
`resps`. -/
def getNewVersionReleaseTag (resps : List Char → List RawRelease)
    (rts : List ReleaseType) (repo cur : List Char) : Option (List Char) :=
  ((getLatestVersionRelease true (resps repo) cur rts).1).map Release.tagName

/-! ## Memoization of `_get_new_version`

`_get_new_version` is wrapped in `functools.cache` (main.py lines 377-381),
keyed on `(action_repository, current_version)` for the single updater
instance of a run.  The cache and a log of the underlying (collaborator-
calling) computations are modelled explicitly. -/

/-- Run-scoped resolver state: the memoization cache as an association list,
plus the log of keys for which the underlying computation (and hence its
collaborator lookups) actually ran. -/
structure ResolverState (α : Type) where
  cache : List ((List Char × List Char) × α)
  callLog : List (List Char × List Char)

/-- A call to the `functools.cache`-wrapped `_get_new_version`: answer from
the cache when the key is present, otherwise run `compute` (the function
body, which performs the collaborator lookups), cache the result and log the
computation. -/
def cachedCall {α : Type} (compute : List Char → List Char → α)
    (s : ResolverState α) (k : List Char × List Char) : α × ResolverState α :=
  match s.cache.find? (fun e => decide (e.1 = k)) with
  | some e => (e.2, s)
  | none =>
    let r := compute k.1 k.2
    (r, ⟨(k, r) :: s.cache, s.callLog ++ [k]⟩)

/-- A sequence of memoized resolver calls, returning the final state. -/
def runCalls {α : Type} (compute : List Char → List Char → α)
    (s : ResolverState α) (ks : List (List Char × List Char)) : ResolverState α :=
  ks.foldl (fun st k => (cachedCall compute st k).2) s

/-! ## Run-level control flow -/

/-- How a run terminates: with a failure exit status (`SystemExit(1)`) or
successfully (normal completion or `SystemExit(0)`). -/
inductive RunOutcome
  | exitFailure
  | exitSuccess
deriving DecidableEq, Repr

/-- `_get_workflow_paths` (main.py lines 453-461): the union of the paths
from the workflow-listing API and the extra configured locations; if it is
empty the run aborts with `SystemExit(1)`. -/
def getWorkflowPaths (apiPaths extraPaths : List (List Char)) :
    Except Unit (List (List Char)) :=
  let ps := apiPaths ++ extraPaths
  if ps.isEmpty then .error () else .ok ps

/-- The exit behaviour of `run` (main.py lines 40-110) over the collaborator
answers it branches on: the discovered workflow paths, whether git reports
changes after the per-file processing (`git_has_changes` catches its own
subprocess error and never aborts), the `skip_pull_request` flag, whether
every git command run by `create_new_git_branch` and `git_commit_changes`
succeeds (`gitOk` — on a failing git command `run_subprocess_command` at
run_git.py lines 59-64 raises `SystemExit(returncode)` with the nonzero
returncode, a failure exit, before `create_pull_request` is ever reached),
and whether the create-pull-request collaborator succeeds (it raises
`SystemExit(1)` itself on an API failure, utils.py line 60).  The
path-emptiness re-check at lines 45-50 (`SystemExit(0)`) is kept although
`_get_workflow_paths` has already aborted in that case. -/
def runOutcome (apiPaths extraPaths : List (List Char))
    (hasChanges skipPR gitOk prCreateOk : Bool) : RunOutcome :=
  match getWorkflowPaths apiPaths extraPaths with
  | .error _ => .exitFailure
  | .ok paths =>
    if paths.isEmpty then .exitSuccess
    else if hasChanges then
      if !skipPR then
        if !gitOk then .exitFailure
        else (if prCreateOk then .exitSuccess else .exitFailure)
      else .exitFailure
    else .exitSuccess

/-! ## Derived definitions used by the statements -/

/-- Descending order between adjacent sorted releases: the earlier one does
not compare less than the later one. -/
def descRel (x y : Release) : Prop :=
  cmpPyVersion x.tagNameParsed y.tagNameParsed ≠ Ordering.lt

instance (x y : Release) : Decidable (descRel x y) := by
  unfold descRel; infer_instance

/-- Strict lexicographic "greater" on the (major, minor, micro) triple of two
release component lists, expressed as a three-way comparison. -/
def tripleCmp (rr cc : List Nat) : Ordering :=
  (cmpN (majorOf rr) (majorOf cc)).then
    ((cmpN (minorOf rr) (minorOf cc)).then (cmpN (microOf rr) (microOf cc)))

/-- Whether one action token qualifies for an update under the loop of
`_update_workflow`: it parses, the resolver returns a new version, and the
rewritten token differs from the old one. -/
def qualifies (getNewVer : List Char → List Char → Option (List Char))
    (a : List Char) : Bool :=
  match parseActionToken a with
  | none => false
  | some (l, v) =>
    match getNewVer (ownerRepo l) v with
    | none => false
    | some nv => decide (¬ a = l ++ '@' :: nv)

theorem cmpN_swap (a b : Nat) : cmpN b a = (cmpN a b).swap := by
  unfold cmpN
  split_ifs <;> first | rfl | (exfalso; omega)

theorem ordThen_swap (o p : Ordering) : (o.then p).swap = o.swap.then p.swap := by
  cases o <;> rfl

theorem foldlThen_map_swap (os : List Ordering) :
    ∀ i, (os.map Ordering.swap).foldl Ordering.then i.swap
      = (os.foldl Ordering.then i).swap := by
  induction os with
  | nil => intro i; rfl
  | cons o os ih =>
    intro i
    simp only [List.map_cons, List.foldl_cons]
    rw [← ordThen_swap]
    exact ih (i.then o)

theorem zipWith_cmpN_swap : ∀ a b : List Nat,
    List.zipWith cmpN b a = (List.zipWith cmpN a b).map Ordering.swap := by
  intro a
  induction a with
  | nil => intro b; cases b <;> rfl
  | cons x xs ih =>
    intro b
    cases b with
    | nil => rfl
    | cons y ys =>
      simp only [List.zipWith_cons_cons, List.map_cons]
      rw [cmpN_swap x y, ih ys]

theorem cmpNatList_swap (a b : List Nat) : cmpNatList b a = (cmpNatList a b).swap := by
  show ((padZeros (max b.length a.length) b).zipWith cmpN
      (padZeros (max b.length a.length) a)).foldl Ordering.then .eq = _
  rw [Nat.max_comm b.length a.length, zipWith_cmpN_swap]
  exact foldlThen_map_swap _ Ordering.eq

theorem cmpChars_swap : ∀ a b : List Char, cmpChars b a = (cmpChars a b).swap := by
  intro a
  induction a with
  | nil => intro b; cases b <;> rfl
  | cons c cs ih =>
    intro b
    cases b with
    | nil => rfl
    | cons d ds =>
      simp only [cmpChars]
      rw [cmpN_swap, ih ds, ordThen_swap]

theorem cmpPyVersion_swap (a b : PyVersion) :
    cmpPyVersion b a = (cmpPyVersion a b).swap := by
  cases a with
  | release ra =>
    cases b with
    | release rb => exact cmpNatList_swap ra rb
    | legacy lb => rfl
  | legacy la =>
    cases b with
    | release rb => rfl
    | legacy lb => exact cmpChars_swap la lb

theorem descRel_total {x y : Release} (h : ¬ descRel x y) : descRel y x := by
  unfold descRel at *
  have hlt : cmpPyVersion x.tagNameParsed y.tagNameParsed = Ordering.lt := not_ne_iff.mp h
  rw [cmpPyVersion_swap, hlt]
  decide

theorem insertDescending_headOr (x : Release) (l : List Release) :
    (insertDescending x l).head? = some x ∨ (insertDescending x l).head? = l.head? := by
  cases l with
  | nil => left; rfl
  | cons y ys =>
    by_cases h : cmpPyVersion x.tagNameParsed y.tagNameParsed ≠ Ordering.lt
    · left; simp [insertDescending, h]
    · right; simp [insertDescending, h]

theorem chain_insertDescending (x : Release) :
    ∀ l : List Release, List.Chain' descRel l →
      List.Chain' descRel (insertDescending x l) := by
  intro l
  induction l with
  | nil => intro _; simp [insertDescending]
  | cons y ys ih =>
    intro h
    by_cases hxy : cmpPyVersion x.tagNameParsed y.tagNameParsed ≠ Ordering.lt
    · simp only [insertDescending, if_pos hxy]
      exact List.Chain'.cons hxy h
    · simp only [insertDescending, if_neg hxy]
      have hyx : descRel y x := descRel_total hxy
      have hys : List.Chain' descRel ys := h.tail
      have ihys := ih hys
      apply List.chain'_cons'.mpr
      refine ⟨?_, ihys⟩
      intro z hz
      rcases insertDescending_headOr x ys with hh | hh
      · rw [hh] at hz
        simp only [Option.mem_def, Option.some.injEq] at hz
        rw [← hz]
        exact hyx
      · rw [hh] at hz
        exact (List.chain'_cons'.mp h).1 z hz

theorem chain_sortReleasesDescending (l : List Release) :
    List.Chain' descRel (sortReleasesDescending l) := by
  unfold sortReleasesDescending
  induction l with
  | nil => simp
  | cons x xs ih =>
    simp only [List.foldr_cons]
    exact chain_insertDescending x _ ih

/-! ## Release-filter lemmas -/

theorem releaseFilter_release (rts : List ReleaseType) (rr cc : List Nat) :
    releaseFilter rts (.release rr) (.release cc)
      = .ok (filterBool rts (.release rr) (.release cc)) := by
  unfold releaseFilter filterBool
  by_cases h1 : rts = [ReleaseType.major, ReleaseType.minor, ReleaseType.patch]
  · simp [h1]
  · by_cases h2 : rts = []
    · subst h2
      simp [h1, bumpChecks]
    · simp [h1, h2]

theorem findQualifying_eq_find (rts : List ReleaseType) (cc : List Nat)
    (fb : Option Release) :
    ∀ l : List Release, (∀ r ∈ l, isSemanticPV r.tagNameParsed = true) →
      findQualifying rts (.release cc) fb l
        = (l.find? (fun r => filterBool rts r.tagNameParsed (.release cc)), false) := by
  intro l
  induction l with
  | nil => intro _; rfl
  | cons r rest ih =>
    intro hall
    have hr : isSemanticPV r.tagNameParsed = true := hall r (List.mem_cons_self r rest)
    obtain ⟨rr, hrr⟩ : ∃ rr, r.tagNameParsed = PyVersion.release rr := by
      cases hh : r.tagNameParsed with
      | release a => exact ⟨a, rfl⟩
      | legacy a => rw [hh] at hr; exact absurd hr (by simp [isSemanticPV])
    unfold findQualifying
    rw [hrr, releaseFilter_release]
    cases hb : filterBool rts (.release rr) (.release cc) with
    | true =>
      rw [List.find?_cons_of_pos _ (by rw [hrr]; exact hb)]
    | false =>
      rw [List.find?_cons_of_neg _ (by rw [hrr, hb]; simp)]
      exact ih (fun q hq => hall q (List.mem_cons_of_mem _ hq))

/-! ## Substitution lemmas -/

theorem boundaryMatch_nil {act : List Char} (h : act ≠ []) :
    boundaryMatch act [] = false := by
  cases act with
  | nil => exact absurd rfl h
  | cons a as => rfl

theorem reSubScan_of_no_match (act rep : List Char) :
    ∀ (fuel : Nat) (t : List Char),
      (∀ n, boundaryMatch act (t.drop n) = false) →
      reSubScan act rep fuel t = t := by
  intro fuel
  induction fuel with
  | zero => intro t _; rfl
  | succ fuel ih =>
    intro t h
    have h0 := h 0
    rw [List.drop_zero] at h0
    unfold boundaryMatch at h0
    unfold reSubScan
    cases hc : tryMatch act t with
    | some p => simp [hc] at h0
    | none =>
      cases t with
      | nil => rfl
      | cons c cs =>
        have hcs : ∀ n, boundaryMatch act (cs.drop n) = false := by
          intro n
          have hh := h (n + 1)
          rwa [List.drop_succ_cons] at hh
        show c :: reSubScan act rep fuel cs = c :: cs
        rw [ih cs hcs]

/-! ## Claim C1 — token-boundary safety of the text substitution -/

/-- C1, counterexample.  The claim states that an occurrence of the old token
is rewritten only when it is both preceded and followed by whitespace, a
quote, or a line edge.  Here the occurrence of `actions/checkout@v2` is
preceded by the letter `x` (no boundary of any kind), yet the substitution of
main.py lines 173-179 rewrites it: the pattern constrains only what follows
the token. -/
theorem claim_C1_counterexample :
    reSub (str "actions/checkout@v2") (str "actions/checkout@v4")
        (str "xactions/checkout@v2 end")
      = str "xactions/checkout@v4 end"
    ∧ str "xactions/checkout@v4 end" ≠ str "xactions/checkout@v2 end" := by
  decide

/-- C1, amended.  The substitution checks a boundary only after the token
(one-or-more whitespace then an optional quote, or an optional quote at a
line edge) and places no constraint on what precedes it.  Consequently a text
in which no occurrence of the old token is followed by such a boundary — in
particular one where every occurrence is embedded inside a longer token
sharing the old token as a prefix, such as `actions/checkout@v2-rc1` — is
returned byte-identical. -/
theorem claim_C1_amended (act rep t : List Char) (hact : act ≠ [])
    (h : ∀ n, n ≤ t.length → boundaryMatch act (t.drop n) = false) :
    reSub act rep t = t := by
  apply reSubScan_of_no_match
  intro n
  by_cases hn : n ≤ t.length
  · exact h n hn
  · rw [List.drop_eq_nil_of_le (le_of_lt (lt_of_not_le hn))]
    exact boundaryMatch_nil hact

/-- C1, witness for the amended theorem: a file containing only the
prefix-extended token `actions/checkout@v2-rc1` is left unchanged by the
substitution that resolves `actions/checkout@v2`. -/
theorem claim_C1_witness :
    reSub (str "actions/checkout@v2") (str "actions/checkout@v4")
        (str "uses: actions/checkout@v2-rc1\n")
      = str "uses: actions/checkout@v2-rc1\n" :=
  claim_C1_amended _ _ _ (by decide) (by decide)

/-! ## Claim C3 — legacy current version bypasses the filter -/

/-- C3.  Under the ReleaseTag strategy, whenever the current version fails
semantic parsing (`LegacyVersion`) and the non-prerelease release list is
nonempty, `_get_latest_version_release` ignores the release-type policy
entirely and returns the first release of the descending-sorted list,
emitting the reliability warning (the `Bool` component). -/
theorem claim_C3_legacy_fallback (apiOk : Bool) (resp : List RawRelease)
    (cur : List Char) (rts : List ReleaseType) (raw : List Char)
    (hparse : parseVersion cur = PyVersion.legacy raw)
    (hne : getGithubReleases apiOk resp ≠ []) :
    getLatestVersionRelease apiOk resp cur rts
      = ((getGithubReleases apiOk resp).head?, true) := by
  unfold getLatestVersionRelease
  cases hg : getGithubReleases apiOk resp with
  | nil => exact absurd hg hne
  | cons r0 rest => rw [hparse]; rfl

/-- C3, witness: current version `abcdef1` with non-prerelease releases
`v1.0.0` and `v1.1.0` resolves to `v1.1.0` with the warning, under a
policy (`[patch]`) that would otherwise filter. -/
theorem claim_C3_witness :
    getLatestVersionRelease true
        [⟨str "v1.0.0", str "d1", str "u1", false⟩,
         ⟨str "v1.1.0", str "d2", str "u2", false⟩]
        (str "abcdef1") [ReleaseType.patch]
      = (some ⟨str "v1.1.0", str "d2", str "u2", PyVersion.release [1, 1, 0]⟩,
         true) := by
  rw [claim_C3_legacy_fallback true
    [⟨str "v1.0.0", str "d1", str "u1", false⟩,
     ⟨str "v1.1.0", str "d2", str "u2", false⟩]
    (str "abcdef1") [ReleaseType.patch] (str "abcdef1") (by decide) (by decide)]
  decide

/-! ## Claim C4 — descending sort, first qualifying candidate -/

theorem releaseFilter_legacy (rts : List ReleaseType) (s : List Char)
    (c : PyVersion)
    (h1 : rts ≠ [ReleaseType.major, ReleaseType.minor, ReleaseType.patch])
    (h2 : rts ≠ []) :
    releaseFilter rts (.legacy s) c = .error () := by
  unfold releaseFilter
  rw [if_neg h1, if_neg h2]

theorem findQualifying_char (rts : List ReleaseType) (cc : List Nat)
    (fb : Option Release)
    (h1 : rts ≠ [ReleaseType.major, ReleaseType.minor, ReleaseType.patch])
    (h2 : rts ≠ []) :
    ∀ l : List Release,
      findQualifying rts (.release cc) fb l
        = match l.find? (fun r => !(isSemanticPV r.tagNameParsed)
            || filterBool rts r.tagNameParsed (.release cc)) with
          | none => (none, false)
          | some r =>
            if isSemanticPV r.tagNameParsed then (some r, false) else (fb, true) := by
  intro l
  induction l with
  | nil => rfl
  | cons r rest ih =>
    unfold findQualifying
    cases hrr : r.tagNameParsed with
    | release rr =>
      rw [releaseFilter_release]
      cases hb : filterBool rts (.release rr) (.release cc) with
      | true =>
        rw [List.find?_cons_of_pos _ (by rw [hrr, hb]; simp [isSemanticPV])]
        simp [hrr, isSemanticPV]
      | false =>
        rw [List.find?_cons_of_neg _ (by rw [hrr, hb]; simp [isSemanticPV])]
        exact ih
    | legacy s =>
      rw [releaseFilter_legacy rts s _ h1 h2]
      rw [List.find?_cons_of_pos _ (by rw [hrr]; simp [isSemanticPV])]
      simp [hrr, isSemanticPV]

/-- C4, counterexample.  The claim asserts for every candidate list that the
first filter-qualifying candidate of the descending order is selected and
that the absence of a qualifying candidate gives `None`.  With current
`v2.0.0`, policy `[patch]` and candidates `v1.0.0` (filter-rejected) and
`nightly` (non-semantic tag): the descending walk reaches `nightly`, the bump
checks read its missing `major` attribute, the `AttributeError` is caught at
main.py:322-328, and the resolver returns `github_releases[0]` — the
filter-rejected `v1.0.0` — with a reliability warning, not `None`. -/
theorem claim_C4_counterexample :
    releaseFilter [ReleaseType.patch] (PyVersion.release [1, 0, 0])
        (PyVersion.release [2, 0, 0]) = Except.ok false
    ∧ getLatestVersionRelease true
        [⟨str "v1.0.0", str "d1", str "u1", false⟩,
         ⟨str "nightly", str "d2", str "u2", false⟩]
        (str "v2.0.0") [ReleaseType.patch]
      = (some ⟨str "v1.0.0", str "d1", str "u1", PyVersion.release [1, 0, 0]⟩,
         true) :=
  ⟨rfl, rfl⟩

/-- C4, amended.  For a semantically parsing current version the candidates
are sorted descending by parsed version and: (a) when every candidate tag
parses semantically, the first candidate accepted by the release filter is
selected with no warning, and `none` (not an error) results when no candidate
is accepted; (b) when the release-type list is neither the canonical full
list nor empty (the two shapes whose filter never reads version attributes),
the walk stops at the first candidate that is accepted or fails semantic
parsing — a non-semantic candidate raises `AttributeError` and yields the
overall newest release `github_releases[0]` with a reliability warning
instead of `none`. -/
theorem claim_C4_amended (resp : List RawRelease) (cur : List Char)
    (rts : List ReleaseType) (cc : List Nat)
    (hparse : parseVersion cur = PyVersion.release cc) :
    List.Chain' descRel (getGithubReleases true resp)
    ∧ ((∀ r ∈ getGithubReleases true resp, isSemanticPV r.tagNameParsed = true) →
        getLatestVersionRelease true resp cur rts
          = ((getGithubReleases true resp).find?
              (fun r => filterBool rts r.tagNameParsed (PyVersion.release cc)),
             false))
    ∧ (rts ≠ [ReleaseType.major, ReleaseType.minor, ReleaseType.patch] →
        rts ≠ [] →
        getLatestVersionRelease true resp cur rts
          = match (getGithubReleases true resp).find?
              (fun r => !(isSemanticPV r.tagNameParsed)
                || filterBool rts r.tagNameParsed (PyVersion.release cc)) with
            | none => (none, false)
            | some r =>
              if isSemanticPV r.tagNameParsed then (some r, false)
              else ((getGithubReleases true resp).head?, true)) := by
  refine ⟨?_, ?_, ?_⟩
  · unfold getGithubReleases
    by_cases hc : (true && !resp.isEmpty) = true
    · rw [if_pos hc]
      exact chain_sortReleasesDescending _
    · rw [if_neg hc]
      simp
  · intro hsem
    unfold getLatestVersionRelease
    cases hg : getGithubReleases true resp with
    | nil => rfl
    | cons r0 rest =>
      rw [hparse]
      rw [hg] at hsem
      exact findQualifying_eq_find rts cc (some r0) (r0 :: rest) hsem
  · intro h1 h2
    unfold getLatestVersionRelease
    cases hg : getGithubReleases true resp with
    | nil => rfl
    | cons r0 rest =>
      rw [hparse]
      exact findQualifying_char rts cc (some r0) h1 h2 (r0 :: rest)

/-- C4, witness for the amended theorem, exercising both branches: with all
tags semantic, current `v1.2.3` and policy `{major, patch}` over `v2.0.0` and
`v1.2.4` select `v2.0.0` (highest first, no warning); with a non-semantic
candidate present, current `v2.0.0` and policy `[patch]` over `v1.0.0` and
`nightly` fall back to the newest release with the warning. -/
theorem claim_C4_witness :
    getLatestVersionRelease true
        [⟨str "v1.2.4", str "d1", str "u1", false⟩,
         ⟨str "v2.0.0", str "d2", str "u2", false⟩]
        (str "v1.2.3") [ReleaseType.major, ReleaseType.patch]
      = (some ⟨str "v2.0.0", str "d2", str "u2", PyVersion.release [2, 0, 0]⟩,
         false)
    ∧ getLatestVersionRelease true
        [⟨str "v1.0.0", str "d1", str "u1", false⟩,
         ⟨str "nightly", str "d2", str "u2", false⟩]
        (str "v2.0.0") [ReleaseType.patch]
      = (some ⟨str "v1.0.0", str "d1", str "u1", PyVersion.release [1, 0, 0]⟩,
         true) := by
  constructor
  · rw [(claim_C4_amended
      [⟨str "v1.2.4", str "d1", str "u1", false⟩,
       ⟨str "v2.0.0", str "d2", str "u2", false⟩]
      (str "v1.2.3") [ReleaseType.major, ReleaseType.patch] [1, 2, 3]
      (by decide)).2.1 (by decide)]
    decide
  · rw [(claim_C4_amended
      [⟨str "v1.0.0", str "d1", str "u1", false⟩,
       ⟨str "nightly", str "d2", str "u2", false⟩]
      (str "v2.0.0") [ReleaseType.patch] [2, 0, 0]
      (by decide)).2.2 (by decide) (by decide)]
    decide

/-! ## Claim C5 — categorical acceptance and the canonical-order check -/

theorem bumpChecks_full (rts : List ReleaseType)
    (h1 : ReleaseType.major ∈ rts) (h2 : ReleaseType.minor ∈ rts)
    (h3 : ReleaseType.patch ∈ rts) (rr cc : List Nat) :
    bumpChecks rts rr cc = decide (tripleCmp rr cc = Ordering.gt) := by
  unfold bumpChecks
  rw [decide_eq_true h1, decide_eq_true h2, decide_eq_true h3]
  simp only [Bool.true_and, ← Bool.decide_and, ← Bool.decide_or]
  rw [decide_eq_decide]
  unfold tripleCmp cmpN
  split_ifs <;> simp [Ordering.then] <;> omega

/-- C5, counterexample.  The claim asserts that any order of specification of
the full release-type set gives the unconditional filter.  The configuration
cleaner keeps the user's order (`minor,major,patch` stays
`[minor, major, patch]`), and `_release_filter_function` compares with Python
list equality against `[MAJOR, MINOR, PATCH]`, so this order misses the fast
path: a parseable non-prerelease candidate equal to the current version is
rejected instead of accepted. -/
theorem claim_C5_counterexample :
    cleanReleaseTypes (str "minor,major,patch")
        = Except.ok (some [ReleaseType.minor, ReleaseType.major, ReleaseType.patch])
    ∧ releaseFilter [ReleaseType.minor, ReleaseType.major, ReleaseType.patch]
        (PyVersion.release [1, 0, 0]) (PyVersion.release [1, 0, 0])
        = Except.ok false :=
  ⟨rfl, rfl⟩

/-- C5, amended.  The filter accepts every candidate unconditionally exactly
when the configured release-type list is `[major, minor, patch]` in that
canonical order (the list produced by `all` or by listing the names in that
order).  For any list containing all three types in a different order, the
filter instead accepts precisely the candidates whose (major, minor, micro)
triple is lexicographically greater than the current version's. -/
theorem claim_C5_amended :
    (∀ r c : PyVersion,
        releaseFilter [ReleaseType.major, ReleaseType.minor, ReleaseType.patch] r c
          = Except.ok true)
    ∧ (∀ (rts : List ReleaseType) (rr cc : List Nat),
        ReleaseType.major ∈ rts → ReleaseType.minor ∈ rts →
        ReleaseType.patch ∈ rts →
        rts ≠ [ReleaseType.major, ReleaseType.minor, ReleaseType.patch] →
        releaseFilter rts (PyVersion.release rr) (PyVersion.release cc)
          = Except.ok (decide (tripleCmp rr cc = Ordering.gt))) := by
  constructor
  · intro r c
    simp [releaseFilter]
  · intro rts rr cc h1 h2 h3 hne
    have hnil : rts ≠ [] := by
      intro h
      rw [h] at h1
      exact absurd h1 (List.not_mem_nil _)
    unfold releaseFilter
    rw [if_neg hne, if_neg hnil]
    show Except.ok (bumpChecks rts rr cc) = _
    rw [bumpChecks_full rts h1 h2 h3]

/-- C5, witness for the amended theorem: with the full set specified in the
order `[minor, major, patch]`, a candidate strictly above the current version
is accepted. -/
theorem claim_C5_witness :
    releaseFilter [ReleaseType.minor, ReleaseType.major, ReleaseType.patch]
        (PyVersion.release [2, 0, 0]) (PyVersion.release [1, 0, 0])
      = Except.ok true := by
  rw [claim_C5_amended.2 [ReleaseType.minor, ReleaseType.major, ReleaseType.patch]
    [2, 0, 0] [1, 0, 0] (by decide) (by decide) (by decide) (by decide)]
  rfl

/-! ## Splitting lemmas for the reference parser -/

theorem splitOnChar_ne_nil (sep : Char) : ∀ t, splitOnChar sep t ≠ [] := by
  intro t
  cases t with
  | nil => simp [splitOnChar]
  | cons c cs =>
    unfold splitOnChar
    by_cases h : c = sep
    · simp [h]
    · rw [if_neg h]
      cases hs : splitOnChar sep cs with
      | nil => simp
      | cons p ps => simp

theorem splitOnChar_single (sep : Char) :
    ∀ t x : List Char, splitOnChar sep t = [x] ↔ (t = x ∧ ¬ sep ∈ x) := by
  intro t
  induction t with
  | nil =>
    intro x
    constructor
    · intro h
      injection h with h1 _
      exact ⟨h1, by rw [← h1]; exact List.not_mem_nil sep⟩
    · rintro ⟨he, _⟩
      rw [← he]
      rfl
  | cons c cs ih =>
    intro x
    by_cases hc : c = sep
    · subst hc
      have hstep : splitOnChar c (c :: cs) = [] :: splitOnChar c cs := by
        simp only [splitOnChar]; simp
      rw [hstep]
      constructor
      · intro h
        injection h with _ h2
        exact absurd h2 (splitOnChar_ne_nil c cs)
      · rintro ⟨he, hm⟩
        rw [← he] at hm
        exact absurd (List.mem_cons_self c cs) hm
    · have hstep : splitOnChar sep (c :: cs)
          = match splitOnChar sep cs with
            | [] => [[c]]
            | p :: ps => (c :: p) :: ps := by
        simp only [splitOnChar]; rw [if_neg hc]
      cases hs : splitOnChar sep cs with
      | nil => exact absurd hs (splitOnChar_ne_nil sep cs)
      | cons p ps =>
        rw [hstep, hs]
        constructor
        · intro h
          injection h with h1 h2
          have h3 : splitOnChar sep cs = [p] := by rw [hs, h2]
          obtain ⟨h4, h5⟩ := (ih p).mp h3
          refine ⟨?_, ?_⟩
          · rw [← h1, h4]
          · rw [← h1]
            simp only [List.mem_cons, not_or]
            exact ⟨fun e => hc e.symm, h5⟩
        · rintro ⟨he, hm⟩
          rw [← he] at hm
          rw [List.mem_cons, not_or] at hm
          have h6 : splitOnChar sep cs = [cs] := (ih cs).mpr ⟨rfl, hm.2⟩
          rw [hs] at h6
          injection h6 with h7 h8
          rw [h7, h8, ← he]

theorem splitOnChar_pair (sep : Char) :
    ∀ t l v : List Char,
      splitOnChar sep t = [l, v] ↔ (t = l ++ sep :: v ∧ ¬ sep ∈ l ∧ ¬ sep ∈ v) := by
  intro t
  induction t with
  | nil =>
    intro l v
    constructor
    · intro h
      injection h with _ h2
      simp at h2
    · rintro ⟨he, _, _⟩
      cases l with
      | nil => simp at he
      | cons a as => simp at he
  | cons c cs ih =>
    intro l v
    by_cases hc : c = sep
    · subst hc
      have hstep : splitOnChar c (c :: cs) = [] :: splitOnChar c cs := by
        simp only [splitOnChar]; simp
      rw [hstep]
      constructor
      · intro h
        injection h with h1 h2
        obtain ⟨h3, h4⟩ := (splitOnChar_single c cs v).mp h2
        refine ⟨?_, ?_, h4⟩
        · rw [← h1, h3]
          rfl
        · rw [← h1]
          exact List.not_mem_nil c
      · rintro ⟨he, hl, hv⟩
        cases l with
        | cons a as =>
          simp only [List.cons_append] at he
          injection he with h1 _
          rw [← h1] at hl
          exact absurd (List.mem_cons_self c as) hl
        | nil =>
          simp only [List.nil_append] at he
          injection he with _ h2
          have h6 : splitOnChar c cs = [v] := (splitOnChar_single c cs v).mpr ⟨h2, hv⟩
          rw [h6]
    · have hstep : splitOnChar sep (c :: cs)
          = match splitOnChar sep cs with
            | [] => [[c]]
            | p :: ps => (c :: p) :: ps := by
        simp only [splitOnChar]; rw [if_neg hc]
      cases hs : splitOnChar sep cs with
      | nil => exact absurd hs (splitOnChar_ne_nil sep cs)
      | cons p ps =>
        rw [hstep, hs]
        constructor
        · intro h
          injection h with h1 h2
          have h3 : splitOnChar sep cs = [p, v] := by rw [hs, h2]
          obtain ⟨h4, h5, h6⟩ := (ih p v).mp h3
          refine ⟨?_, ?_, h6⟩
          · rw [← h1, h4]
            rfl
          · rw [← h1]
            simp only [List.mem_cons, not_or]
            exact ⟨fun e => hc e.symm, h5⟩
        · rintro ⟨he, hl, hv⟩
          cases l with
          | nil =>
            simp only [List.nil_append] at he
            injection he with h1 _
            exact absurd h1 hc
          | cons a as =>
            simp only [List.cons_append] at he
            injection he with h1 h2
            rw [List.mem_cons, not_or] at hl
            have h7 : splitOnChar sep cs = [as, v] := (ih as v).mpr ⟨h2, hl.2, hv⟩
            rw [hs] at h7
            injection h7 with h8 h9
            rw [h8, h9, h1]

theorem parseActionToken_iff (t l v : List Char) :
    parseActionToken t = some (l, v) ↔
      (t = l ++ '@' :: v ∧ ¬ '@' ∈ l ∧ ¬ '@' ∈ v) := by
  unfold parseActionToken
  constructor
  · intro h
    cases hs : splitOnChar '@' t with
    | nil => exact absurd hs (splitOnChar_ne_nil '@' t)
    | cons p ps =>
      rw [hs] at h
      cases ps with
      | nil => simp at h
      | cons q qs =>
        cases qs with
        | nil =>
          simp only [Option.some.injEq, Prod.mk.injEq] at h
          obtain ⟨h1, h2⟩ := h
          rw [h1, h2] at hs
          exact (splitOnChar_pair '@' t l v).mp hs
        | cons r rs => simp at h
  · intro hh
    rw [(splitOnChar_pair '@' t l v).mpr hh]

/-! ## Claim C6 — reference-token parsing -/

/-- C6, counterexample.  The claim states that every token containing at
least one `@` is split at the rightmost `@`.  The token `a/b@v1@x` contains
two `@` characters; `action.split("@")` yields three parts, the two-name
tuple unpacking raises `ValueError`, and the reference is skipped (`none`)
instead of being split into `a/b@v1` and `x`. -/
theorem claim_C6_counterexample :
    '@' ∈ str "a/b@v1@x" ∧ parseActionToken (str "a/b@v1@x") = none := by
  decide

/-- C6, amended.  A token is split into `(location, version)` exactly when it
contains exactly one `@` (the split point); any other token — no `@` at all,
or more than one — is reported with a format notice and skipped, and the
per-file loop continues with the remaining references unchanged. -/
theorem claim_C6_amended :
    (∀ t l v : List Char,
        parseActionToken t = some (l, v) ↔
          (t = l ++ '@' :: v ∧ ¬ '@' ∈ l ∧ ¬ '@' ∈ v))
    ∧ (∀ (getNewVer : List Char → List Char → Option (List Char))
        (fileData bad : List Char) (rest ignore : List (List Char)),
        parseActionToken bad = none → ¬ bad ∈ ignore →
        updateWorkflow getNewVer fileData (bad :: rest) ignore
          = updateWorkflow getNewVer fileData rest ignore) := by
  constructor
  · exact parseActionToken_iff
  · intro g fd bad rest ign hbad hnotin
    unfold updateWorkflow
    rw [List.filter_cons_of_pos (by simp [hnotin])]
    simp only [List.foldl_cons, stepAction, hbad]

/-- C6, witness for the amended theorem: a token without `@` is skipped and
the processing of the remaining tokens is unaffected. -/
theorem claim_C6_witness :
    updateWorkflow (fun _ _ => none) (str "text")
        [str "badtoken", str "a/b@v1"] []
      = updateWorkflow (fun _ _ => none) (str "text") [str "a/b@v1"] [] :=
  claim_C6_amended.2 _ _ _ _ _ (by decide) (by decide)

/-! ## Claim C8 — no-op identity of the update pass -/

theorem stepResolve_not_qualifies
    (g : List Char → List Char → Option (List Char)) (a l v : List Char)
    (st : WorkflowState)
    (h : (match g (ownerRepo l) v with
          | none => false
          | some nv => decide (¬ a = l ++ '@' :: nv)) = false) :
    (stepResolve g a l v st).text = st.text
    ∧ (stepResolve g a l v st).markdownSet = st.markdownSet := by
  unfold stepResolve
  split
  · exact ⟨rfl, rfl⟩
  next nv heq =>
    rw [heq] at h
    have h2 : decide (¬ a = l ++ '@' :: nv) = false := h
    have ha : a = l ++ '@' :: nv := not_not.mp (of_decide_eq_false h2)
    rw [if_pos ha]
    exact ⟨rfl, rfl⟩

theorem stepAction_not_qualifies
    (g : List Char → List Char → Option (List Char)) (st : WorkflowState)
    (a : List Char) (h : qualifies g a = false) :
    (stepAction g st a).text = st.text
    ∧ (stepAction g st a).markdownSet = st.markdownSet := by
  unfold qualifies at h
  unfold stepAction
  split at h
  next hp =>
    exact ⟨rfl, rfl⟩
  next l v hp =>
    exact stepResolve_not_qualifies g a l v _ h

theorem foldl_not_qualifies (g : List Char → List Char → Option (List Char)) :
    ∀ (l : List (List Char)) (st : WorkflowState),
      (∀ a ∈ l, qualifies g a = false) →
      (l.foldl (stepAction g) st).text = st.text
      ∧ (l.foldl (stepAction g) st).markdownSet = st.markdownSet := by
  intro l
  induction l with
  | nil => intro st _; exact ⟨rfl, rfl⟩
  | cons a as ih =>
    intro st h
    have h1 := stepAction_not_qualifies g st a (h a (List.mem_cons_self a as))
    have h2 := ih (stepAction g st a) (fun b hb => h b (List.mem_cons_of_mem _ hb))
    simp only [List.foldl_cons]
    exact ⟨h2.1.trans h1.1, h2.2.trans h1.2⟩

/-- C8.  If no surviving reference in a file qualifies for an update — each
one either fails to parse, resolves to no new version, or resolves to a token
textually equal to the old one — then the update pass returns the file text
byte-identical, produces no markdown item, and the file is not written back
(the write at main.py lines 183-186 is guarded by a nonempty markdown set). -/
theorem claim_C8_noop_identity
    (getNewVer : List Char → List Char → Option (List Char))
    (fileData : List Char) (actions ignore : List (List Char))
    (h : ∀ a ∈ actions, ¬ a ∈ ignore → qualifies getNewVer a = false) :
    (updateWorkflow getNewVer fileData actions ignore).text = fileData
    ∧ (updateWorkflow getNewVer fileData actions ignore).markdownSet = []
    ∧ fileWritten getNewVer fileData actions ignore = false := by
  have hall : ∀ a ∈ actions.filter (fun a => decide (¬ a ∈ ignore)),
      qualifies getNewVer a = false := by
    intro a ha
    rw [List.mem_filter] at ha
    exact h a ha.1 (of_decide_eq_true ha.2)
  have hres := foldl_not_qualifies getNewVer
    (actions.filter (fun a => decide (¬ a ∈ ignore))) ⟨fileData, [], []⟩ hall
  unfold fileWritten updateWorkflow
  unfold updateWorkflow at hres
  refine ⟨hres.1, hres.2, ?_⟩
  rw [hres.2]
  rfl

/-- C8, witness: a single reference whose resolution returns the already
pinned version leaves the text, the markdown set and the write flag
untouched. -/
theorem claim_C8_witness :
    (updateWorkflow (fun _ _ => some (str "v2")) (str "uses: a/b@v2\n")
        [str "a/b@v2"] []).text = str "uses: a/b@v2\n"
    ∧ (updateWorkflow (fun _ _ => some (str "v2")) (str "uses: a/b@v2\n")
        [str "a/b@v2"] []).markdownSet = []
    ∧ fileWritten (fun _ _ => some (str "v2")) (str "uses: a/b@v2\n")
        [str "a/b@v2"] [] = false :=
  claim_C8_noop_identity _ _ _ _ (by decide)

/-! ## Claim C2 — ignore-list matching -/

theorem find_after_cachedCall {α : Type}
    (compute : List Char → List Char → α) (s : ResolverState α)
    (k kq : List Char × List Char) (e : (List Char × List Char) × α)
    (h : s.cache.find? (fun x => decide (x.1 = kq)) = some e) :
    ((cachedCall compute s k).2).cache.find? (fun x => decide (x.1 = kq))
      = some e := by
  unfold cachedCall
  cases hf : s.cache.find? (fun x => decide (x.1 = k)) with
  | some _ => exact h
  | none =>
    have hkk : k ≠ kq := by
      intro heq
      rw [heq] at hf
      rw [hf] at h
      exact Option.noConfusion h
    show ((k, compute k.1 k.2) :: s.cache).find? (fun x => decide (x.1 = kq))
        = some e
    rw [List.find?_cons_of_neg]
    · exact h
    · simp [hkk]

theorem find_after_runCalls {α : Type}
    (compute : List Char → List Char → α) :
    ∀ (ks : List (List Char × List Char)) (s : ResolverState α)
      (kq : List Char × List Char) (e : (List Char × List Char) × α),
      s.cache.find? (fun x => decide (x.1 = kq)) = some e →
      (runCalls compute s ks).cache.find? (fun x => decide (x.1 = kq))
        = some e := by
  intro ks
  induction ks with
  | nil => intro s kq e h; exact h
  | cons k ks ih =>
    intro s kq e h
    exact ih _ _ _ (find_after_cachedCall compute s k kq e h)

/-- C7.  The `functools.cache` wrapper of `_get_new_version` guarantees that
after a first resolution of a key `(action_repository, current_version)`, any
later call with the same key — with arbitrary other resolutions in between —
returns the same result as the first call and leaves the resolver state
(cache and log of performed underlying computations, i.e. collaborator
lookups) completely unchanged. -/
theorem cachedCall_of_find {α : Type}
    (compute : List Char → List Char → α) (s : ResolverState α)
    (k : List Char × List Char) (r : α)
    (h : s.cache.find? (fun x => decide (x.1 = k)) = some (k, r)) :
    cachedCall compute s k = (r, s) := by
  unfold cachedCall
  rw [h]

theorem claim_C7_memoization (α : Type)
    (compute : List Char → List Char → α) (s0 : ResolverState α)
    (k : List Char × List Char) (ks : List (List Char × List Char)) :
    (cachedCall compute (runCalls compute (cachedCall compute s0 k).2 ks) k).1
      = (cachedCall compute s0 k).1
    ∧ (cachedCall compute (runCalls compute (cachedCall compute s0 k).2 ks) k).2
      = runCalls compute (cachedCall compute s0 k).2 ks := by
  have hstep : ((cachedCall compute s0 k).2).cache.find?
      (fun x => decide (x.1 = k)) = some (k, (cachedCall compute s0 k).1) := by
    unfold cachedCall
    cases hf : s0.cache.find? (fun x => decide (x.1 = k)) with
    | some e =>
      have hk : e.1 = k := by simpa using List.find?_some hf
      rw [hf]
      exact congrArg some (by rw [← hk])
    | none =>
      show ((k, compute k.1 k.2) :: s0.cache).find? (fun x => decide (x.1 = k))
          = _
      rw [List.find?_cons_of_pos]
      simp
  have hpres := find_after_runCalls compute ks _ k _ hstep
  have hcall := cachedCall_of_find compute
    (runCalls compute (cachedCall compute s0 k).2 ks) k
    (cachedCall compute s0 k).1 hpres
  constructor
  · rw [hcall]
  · rw [hcall]

/-! ## Claim C9 — run-fatal conditions -/

/-- C9, counterexample.  The claim states the run aborts with a failure exit
only when no workflow file is discoverable.  Here a workflow file is found,
updates exist and `skip_pull_request` is set: `run` raises `SystemExit(1)`
(main.py line 108) — a failure exit with workflows present (the git and
pull-request collaborators are given as succeeding and are never reached). -/
theorem claim_C9_counterexample :
    getWorkflowPaths [str "ci.yml"] [] = Except.ok [str "ci.yml"]
    ∧ runOutcome [str "ci.yml"] [] true true true true
        = RunOutcome.exitFailure := by
  constructor
  · rfl
  · rfl

/-- C9, amended.  The run exits with failure exactly when no workflow file
is discoverable (API listing plus extra configured locations both empty), or
when git reports changes and pull-request creation is suppressed by
`skip_pull_request`, or when git reports changes, pull requests are not
suppressed and a git command of the branch-creation or commit step fails
(`SystemExit` with the nonzero returncode, run_git.py lines 59-64), or when
git reports changes and the create-pull-request collaborator itself fails
(utils.py line 60).  File-scoped and reference-scoped failures do not appear
in this condition: they are recovered inside the per-file pass. -/
theorem claim_C9_amended (apiPaths extraPaths : List (List Char))
    (hasChanges skipPR gitOk prCreateOk : Bool) :
    runOutcome apiPaths extraPaths hasChanges skipPR gitOk prCreateOk
        = RunOutcome.exitFailure
      ↔ ((apiPaths ++ extraPaths).isEmpty = true
          ∨ (hasChanges = true
              ∧ (skipPR = true ∨ gitOk = false ∨ prCreateOk = false))) := by
  by_cases he : (apiPaths ++ extraPaths).isEmpty
  · simp [runOutcome, getWorkflowPaths, he]
  · cases hasChanges <;> cases skipPR <;> cases gitOk <;> cases prCreateOk <;>
      simp [runOutcome, getWorkflowPaths, he]

/-! ## Claim C10 — possible downgrade under the full release-type list -/

/-- C10.  With the full (canonical) release-type list the filter accepts
every candidate, and no comparison against the current version is made: with
current pin `v5.0.0` and the highest non-prerelease release being `v4.0.0`,
the resolver returns `v4.0.0` — a strictly lower version — and because the
returned tag differs textually from the pin, the update pass substitutes the
downgrade into the file and records a markdown item. -/
theorem claim_C10_downgrade :
    getNewVersionReleaseTag
        (fun _ => [⟨str "v4.0.0", str "2023-01-01", str "u", false⟩])
        [ReleaseType.major, ReleaseType.minor, ReleaseType.patch]
        (str "actions/checkout") (str "v5.0.0") = some (str "v4.0.0")
    ∧ cmpPyVersion (parseVersion (str "v4.0.0")) (parseVersion (str "v5.0.0"))
        = Ordering.lt
    ∧ (updateWorkflow
        (getNewVersionReleaseTag
          (fun _ => [⟨str "v4.0.0", str "2023-01-01", str "u", false⟩])
          [ReleaseType.major, ReleaseType.minor, ReleaseType.patch])
        (str "uses: actions/checkout@v5.0.0\n")
        [str "actions/checkout@v5.0.0"] []).text
        = str "uses: actions/checkout@v4.0.0\n"
    ∧ (updateWorkflow
        (getNewVersionReleaseTag
          (fun _ => [⟨str "v4.0.0", str "2023-01-01", str "u", false⟩])
          [ReleaseType.major, ReleaseType.minor, ReleaseType.patch])
        (str "uses: actions/checkout@v5.0.0\n")
        [str "actions/checkout@v5.0.0"] []).markdownSet ≠ [] := by
  refine ⟨by decide, by decide, by decide, by decide⟩
